import Mathlib

/-!
Verification of the premadegraph player-statistics pipeline.

The JavaScript sources are embedded shallowly:
* JS numbers are modelled as exact rationals extended with the two signed
  infinities and NaN (`JSNum`), so that division by zero and its propagation
  through sums behave as in the source; binary-float rounding is abstracted
  away.  Arithmetic on the finite (rational) parts is performed by the
  kernel-executable wrappers `qadd`, `qsub`, `qmul`, `qdiv`, each proved
  equal to the corresponding field operation on `ℚ`.
* The sqlite `players` tables are modelled as lists of rows; `INSERT OR
  REPLACE` keyed on the primary key becomes `upsertRow`.
* The per-file `fs`/`JSON.parse` boundary is modelled by `MatchFile`, which
  records whether the on-disk document parses and has the expected
  `info.participants` shape.
-/

/-- Executable addition on `ℚ` (`Rat.add` itself is `@[irreducible]`). -/
def qadd (a b : ℚ) : ℚ := Rat.divInt (a.num * b.den + b.num * a.den) (a.den * b.den)

/-- Executable subtraction on `ℚ`. -/
def qsub (a b : ℚ) : ℚ := Rat.divInt (a.num * b.den - b.num * a.den) (a.den * b.den)

/-- Executable multiplication on `ℚ`. -/
def qmul (a b : ℚ) : ℚ := Rat.divInt (a.num * b.num) (a.den * b.den)

/-- Executable division on `ℚ` (division by zero yields zero, as for `/`). -/
def qdiv (a b : ℚ) : ℚ := Rat.divInt (a.num * b.den) (a.den * b.num)

/-- JS-number model: exact rationals extended with infinities and NaN. -/
inductive JSNum where
  | nan
  | posInf
  | negInf
  | fin (q : ℚ)
deriving DecidableEq, Repr

/-- JS `+` on numbers. -/
def jsAdd : JSNum → JSNum → JSNum
  | .nan, _ => .nan
  | _, .nan => .nan
  | .posInf, .negInf => .nan
  | .negInf, .posInf => .nan
  | .posInf, _ => .posInf
  | _, .posInf => .posInf
  | .negInf, _ => .negInf
  | _, .negInf => .negInf
  | .fin a, .fin b => .fin (qadd a b)

/-- JS `*` on numbers. -/
def jsMul : JSNum → JSNum → JSNum
  | .nan, _ => .nan
  | _, .nan => .nan
  | .posInf, .posInf => .posInf
  | .posInf, .negInf => .negInf
  | .negInf, .posInf => .negInf
  | .negInf, .negInf => .posInf
  | .posInf, .fin b => if 0 < b then .posInf else if b < 0 then .negInf else .nan
  | .fin a, .posInf => if 0 < a then .posInf else if a < 0 then .negInf else .nan
  | .negInf, .fin b => if 0 < b then .negInf else if b < 0 then .posInf else .nan
  | .fin a, .negInf => if 0 < a then .negInf else if a < 0 then .posInf else .nan
  | .fin a, .fin b => .fin (qmul a b)

/-- JS `/` on numbers (negative zero identified with zero). -/
def jsDiv : JSNum → JSNum → JSNum
  | .nan, _ => .nan
  | _, .nan => .nan
  | .posInf, .posInf => .nan
  | .posInf, .negInf => .nan
  | .negInf, .posInf => .nan
  | .negInf, .negInf => .nan
  | .posInf, .fin b => if b < 0 then .negInf else .posInf
  | .negInf, .fin b => if b < 0 then .posInf else .negInf
  | .fin _, .posInf => .fin 0
  | .fin _, .negInf => .fin 0
  | .fin a, .fin b =>
      if b = 0 then (if 0 < a then .posInf else if a < 0 then .negInf else .nan)
      else .fin (qdiv a b)

/-- JS `<=` (false whenever either side is NaN). -/
def jsLe : JSNum → JSNum → Bool
  | .nan, _ => false
  | _, .nan => false
  | .negInf, _ => true
  | _, .posInf => true
  | .posInf, _ => false
  | _, .negInf => false
  | .fin a, .fin b => decide (a ≤ b)

/-- JS `>=`. -/
def jsGe (a b : JSNum) : Bool := jsLe b a

/-- JS `Math.round` (round half toward positive infinity) on a finite value. -/
def jsRound (q : ℚ) : ℚ := ((⌊qadd q (mkRat 1 2)⌋ : ℤ) : ℚ)

/-- `Math.round(x * 100) / 100` — rounding to 2 decimal places as in the source. -/
def round2 (q : ℚ) : ℚ := qdiv (jsRound (qmul q 100)) 100

/-- The 11 calibration anchors of `normalizeOpScore`
(`thresholds` array in normalize_players_by_puuid.js); scores written as
exact rationals, e.g. `mkRat 125211 100 = 1252.11`. -/
def thresholds : List (ℚ × ℚ) :=
  [(mkRat 125211 100, 10), (mkRat 87465 100, 9), (mkRat 75102 100, 8),
   (mkRat 67550 100, 7), (600, 6), (mkRat 51291 100, 5), (mkRat 42493 100, 4),
   (350, 3), (280, 2), (220, 1), (mkRat 14692 100, 0)]

/-- The bracketing loop of `normalizeOpScore`: walk adjacent threshold pairs,
on `raw <= upper.score && raw > lower.score` linearly interpolate and round;
if no pair matches, the source's fallback `return 0.0`. -/
def interpLoop (q : ℚ) : List (ℚ × ℚ) → ℚ
  | upper :: lower :: rest =>
      if q ≤ upper.1 ∧ lower.1 < q then
        round2 (qadd lower.2 (qmul (qdiv (qsub q lower.1) (qsub upper.1 lower.1))
          (qsub upper.2 lower.2)))
      else interpLoop q (lower :: rest)
  | _ => 0

/-- `normalizeOpScore` from normalize_players_by_puuid.js.  For a NaN input
both clamp guards and every loop comparison are false in JS, so the source
falls through to its fallback `return 0.0`; that is the `_` branch. -/
def normalizeOpScore (raw : JSNum) : ℚ :=
  if jsGe raw (.fin (mkRat 125211 100)) then 10
  else if jsLe raw (.fin (mkRat 14692 100)) then 0
  else
    match raw with
    | .fin q => interpLoop q thresholds
    | _ => 0

/-- One participant entry of a match document.  A JSON field that may be
absent is an `Option`; `none` is JS `undefined`.  (sqlite `NULL` and JS
`undefined` are identified in this model.) -/
structure Participant where
  puuid : Option String
  riotIdGameName : Option String
  riotIdTagline : Option String
  kills : Option ℚ
  deaths : Option ℚ
  assists : Option ℚ
  goldEarned : Option ℚ
  visionScore : Option ℚ
deriving DecidableEq, Repr

/-- JS falsiness of an optional string: `undefined` and `""` are falsy. -/
def strFalsy : Option String → Bool
  | none => true
  | some s => s.isEmpty

/-- JS `v || d` for an optional string `v` and a default `d`. -/
def strOr (v : Option String) (d : String) : String :=
  if strFalsy v then d else v.getD d

/-- JS `v || 0` for an optional numeric field (absent → 0). -/
def numOr0 (v : Option ℚ) : ℚ := v.getD 0

/-- A JS value in a template literal: `undefined` prints as `"undefined"`. -/
def templStr : Option String → String
  | none => "undefined"
  | some s => s

/-- A numeric field used without a default: absent → NaN in arithmetic. -/
def jsOfOpt : Option ℚ → JSNum
  | none => .nan
  | some q => .fin q

/-- One on-disk match document as seen through `fs.readFileSync` +
`JSON.parse`: it fails to parse, parses without the `info.participants`
shape, or is valid with a (possibly absent) `info.gameDuration` and its
participant list. -/
inductive MatchFile where
  | malformed
  | badShape
  | valid (gameDuration : Option ℚ) (participants : List Participant)
deriving DecidableEq, Repr

/-- `data.info.gameDuration / 60`; an absent duration is `undefined`, and
`undefined / 60` is NaN in JS. -/
def durationMinutes : Option ℚ → JSNum
  | none => .nan
  | some s => .fin (qdiv s 60)

/-- `deaths - (kills + assists) * 0.35` (normalize_players_by_puuid.js,
with the `|| 0` defaults applied to each field). -/
def feedscoreOf (p : Participant) : ℚ :=
  qsub (numOr0 p.deaths) (qmul (qadd (numOr0 p.kills) (numOr0 p.assists)) (mkRat 35 100))

/-- `kills + assists * 0.965 + goldEarned / gameDurationMinutes +
visionScore * 0.15` with JS number semantics: the gold term divides by the
match's duration in minutes, with no guard against a zero or absent
duration. -/
def rawOpScoreOf (durMin : JSNum) (p : Participant) : JSNum :=
  jsAdd (jsAdd (.fin (qadd (numOr0 p.kills) (qmul (numOr0 p.assists) (mkRat 965 1000))))
               (jsDiv (.fin (numOr0 p.goldEarned)) durMin))
        (.fin (qmul (numOr0 p.visionScore) (mkRat 15 100)))

/-- The in-memory per-player aggregate held in `playersMap`. -/
structure Agg where
  names : List String
  feedscoreSum : ℚ
  opscoreSum : JSNum
  match_count : ℕ
  country : Option String
deriving DecidableEq, Repr

/-- JS `Set.add`: keep insertion order, ignore an element already present. -/
def addName (ns : List String) (n : String) : List String :=
  if n ∈ ns then ns else ns ++ [n]

/-- The merge branch of the participant loop: union the name, add both
scores to the running sums, increment the count. -/
def mergeAgg (a : Agg) (name : String) (feed : ℚ) (op : JSNum) : Agg :=
  { a with
    names := addName a.names name
    feedscoreSum := qadd a.feedscoreSum feed
    opscoreSum := jsAdd a.opscoreSum op
    match_count := a.match_count + 1 }

/-- `playersMap`: a JS `Map` keyed by puuid, as an insertion-ordered
association list with unique keys.  `Map.has`/`get`/`set` on an existing key
updates the entry in place; a new key is appended. -/
def addObs (m : List (String × Agg)) (k : String) (name : String) (feed : ℚ)
    (op : JSNum) : List (String × Agg) :=
  match m with
  | [] => [(k, ⟨[name], feed, op, 1, none⟩)]
  | e :: rest =>
      if e.1 = k then (k, mergeAgg e.2 name feed op) :: rest
      else e :: addObs rest k name feed op

/-- One iteration of the participant loop of `normalizePlayersByPuuid`:
a participant with a falsy puuid is skipped with a warning, otherwise its
scores are folded into the map. -/
def processParticipant (durMin : JSNum) (m : List (String × Agg))
    (p : Participant) : List (String × Agg) :=
  if strFalsy p.puuid then m
  else
    addObs m (p.puuid.getD "")
      (strOr p.riotIdGameName "Unknown" ++ "#" ++ strOr p.riotIdTagline "Unknown")
      (feedscoreOf p) (rawOpScoreOf durMin p)

/-- The mutable state of one `normalizePlayersByPuuid` run over the corpus:
the players map, the `totalMatches` counter, and the number of files skipped
with a logged warning/error. -/
structure RunState where
  playersMap : List (String × Agg)
  totalMatches : ℕ
  skippedFiles : ℕ
deriving DecidableEq, Repr

/-- One iteration of the file loop of `normalizePlayersByPuuid`: a file that
fails to parse or lacks `info.participants` is skipped (warning logged,
`continue`); a valid file bumps `totalMatches` and streams its participants
through the map. -/
def processFile (st : RunState) (f : MatchFile) : RunState :=
  match f with
  | .malformed => { st with skippedFiles := st.skippedFiles + 1 }
  | .badShape => { st with skippedFiles := st.skippedFiles + 1 }
  | .valid dur ps =>
      { st with
        totalMatches := st.totalMatches + 1
        playersMap := ps.foldl (processParticipant (durationMinutes dur)) st.playersMap }

/-- The full corpus pass of `normalizePlayersByPuuid`, starting from the
empty map and zero counters. -/
def buildState (corpus : List MatchFile) : RunState :=
  corpus.foldl processFile ⟨[], 0, 0⟩

/-- A row of the `players` table (playersrefined.db).  `names` holds the
JSON-encoded array of name variants, modelled by its content; `puuid` is the
TEXT primary key (nullable in sqlite). -/
structure Row where
  puuid : Option String
  names : List String
  feedscore : JSNum
  opscore : JSNum
  country : Option String
  match_count : ℕ
deriving DecidableEq, Repr

/-- `UPDATE players SET opscore = 0, feedscore = 0, match_count = 0` applied
to one row: only those three columns change. -/
def zeroScoresRow (r : Row) : Row :=
  { r with opscore := .fin 0, feedscore := .fin 0, match_count := 0 }

/-- The score-reset `UPDATE ... WHERE 1=1` over the whole table. -/
def zeroScores (t : List Row) : List Row := t.map zeroScoresRow

/-- Replace the row with primary key `k` in place, or append if no row has
that key (the primary key makes it unique in a real table). -/
def replacePK (k : String) (r : Row) : List Row → List Row
  | [] => [r]
  | x :: rest => if x.puuid = some k then r :: rest else x :: replacePK k r rest

/-- `INSERT OR REPLACE` keyed on the `puuid` primary key: replace the
existing row with that key, else append.  (A NULL key never conflicts in
sqlite and always inserts.) -/
def upsertRow (t : List Row) (r : Row) : List Row :=
  match r.puuid with
  | none => t ++ [r]
  | some k => replacePK k r t

/-- The row written for one `playersMap` entry: averaged feedscore, the
normalized averaged opscore, the entry's (null) country and match count. -/
def rowOfEntry (e : String × Agg) : Row :=
  { puuid := some e.1
    names := e.2.names
    feedscore := jsDiv (.fin e.2.feedscoreSum) (.fin (e.2.match_count : ℚ))
    opscore := .fin (normalizeOpScore (jsDiv e.2.opscoreSum (.fin (e.2.match_count : ℚ))))
    country := e.2.country
    match_count := e.2.match_count }

/-- `normalizePlayersByPuuid` as a table transformer: reset every row's
score columns, rebuild the in-memory map from the corpus, then
`INSERT OR REPLACE` one row per map entry, in map insertion order. -/
def normalizePlayersByPuuid (corpus : List MatchFile) (t : List Row) : List Row :=
  (buildState corpus).playersMap.foldl (fun acc e => upsertRow acc (rowOfEntry e))
    (zeroScores t)

/-- Row lookup by primary key (first matching row). -/
def lookupRow (t : List Row) (k : Option String) : Option Row :=
  t.find? (fun r => r.puuid = k)

/-- Map lookup by puuid. -/
def lookupAgg (m : List (String × Agg)) (k : String) : Option Agg :=
  (m.find? (fun e => e.1 = k)).map (fun e => e.2)

/-- JS `-` on numbers. -/
def jsSub : JSNum → JSNum → JSNum
  | .nan, _ => .nan
  | _, .nan => .nan
  | .posInf, .posInf => .nan
  | .negInf, .negInf => .nan
  | .posInf, _ => .posInf
  | _, .posInf => .negInf
  | .negInf, _ => .negInf
  | _, .negInf => .posInf
  | .fin a, .fin b => .fin (qsub a b)

/-- `p.deaths - (p.kills + p.assists) * 0.35` as computed by
add_new_players.js — no `|| 0` defaults there, so an absent field makes the
whole expression NaN. -/
def addFeedscoreOf (p : Participant) : JSNum :=
  jsSub (jsOfOpt p.deaths)
    (jsMul (jsAdd (jsOfOpt p.kills) (jsOfOpt p.assists)) (.fin (mkRat 35 100)))

/-- `p.kills + p.assists * 0.965 + p.goldEarned / 560 + p.visionScore * 0.15`
as computed by add_new_players.js (fixed gold divisor 560, no defaults). -/
def addOpscoreOf (p : Participant) : JSNum :=
  jsAdd (jsAdd (jsAdd (jsOfOpt p.kills) (jsMul (jsOfOpt p.assists) (.fin (mkRat 965 1000))))
               (jsDiv (jsOfOpt p.goldEarned) (.fin 560)))
        (jsMul (jsOfOpt p.visionScore) (.fin (mkRat 15 100)))

/-- `` `${p.riotIdGameName}#${p.riotIdTagline}` `` as in add_new_players.js
(template literal, no defaulting). -/
def addNameOf (p : Participant) : String :=
  templStr p.riotIdGameName ++ "#" ++ templStr p.riotIdTagline

/-- The mutable state of one `addNewPlayersFromMatches` run: the table, the
`existingPuuids` set (as a list of keys), and the new-player counter. -/
structure AddState where
  table : List Row
  existing : List (Option String)
  newCount : ℕ
deriving DecidableEq, Repr

/-- One iteration of the participant loop of `addNewPlayersFromMatches`:
skip a puuid already in `existingPuuids`, otherwise `INSERT` a fresh row
with the single observed name, the per-match scores, the `" "` country
placeholder and `match_count = 1`, and add the puuid to the set. -/
def addParticipant (st : AddState) (p : Participant) : AddState :=
  if p.puuid ∈ st.existing then st
  else
    { table := st.table ++
        [{ puuid := p.puuid
           names := [addNameOf p]
           feedscore := addFeedscoreOf p
           opscore := addOpscoreOf p
           country := some " "
           match_count := 1 }]
      existing := st.existing ++ [p.puuid]
      newCount := st.newCount + 1 }

/-- The file loop of `addNewPlayersFromMatches`.  `JSON.parse` and the
`data.info.participants` access are unguarded there: a file that does not
parse, or parses without the `info.participants` shape, throws and aborts
the run (`false`), leaving the rows inserted so far in place and the
remaining files unprocessed. -/
def addFiles : AddState → List MatchFile → AddState × Bool
  | st, [] => (st, true)
  | st, .malformed :: _ => (st, false)
  | st, .badShape :: _ => (st, false)
  | st, .valid _ ps :: rest => addFiles (ps.foldl addParticipant st) rest

/-- `addNewPlayersFromMatches`: read the existing puuids, then run the file
loop.  Returns the resulting table and whether the run completed. -/
def addNewPlayersFromMatches (corpus : List MatchFile) (t : List Row) :
    List Row × Bool :=
  let r := addFiles ⟨t, t.map (fun x => x.puuid), 0⟩ corpus
  (r.1.table, r.2)

/-- A row of the `players` table of players.db, the store behind
`/api/save-player`.  That endpoint never supplies a puuid (the column stays
NULL) and stores the display name directly in `names`. -/
structure SPRow where
  names : String
  feedscore : JSNum
  opscore : JSNum
  country : Option String
  match_count : ℕ
deriving DecidableEq, Repr

/-- The request body of `/api/save-player` (the `minimalPlayer` object sent
by the UI): display name, the two per-match scores, a country string. -/
structure SPReq where
  name : Option String
  feedscore : ℚ
  opscore : ℚ
  country : Option String
deriving DecidableEq, Repr

/-- The response of `/api/save-player`. -/
inductive SPResp where
  | badRequest
  | updated (r : SPRow)
  | inserted (r : SPRow)
deriving DecidableEq, Repr

/-- The `/api/save-player` handler: reject a falsy name with 400; look the
player up by `names = player.name`; if found, replace the stored scores by
the running average `(old * oldCount + new) / (oldCount + 1)` (with
`row.match_count || 1` as `oldCount`) and bump the count; otherwise insert a
fresh row with the request's scores and `match_count = 1`.  No
normalization is applied on either path. -/
def savePlayer (t : List SPRow) (req : SPReq) : List SPRow × SPResp :=
  if strFalsy req.name then (t, .badRequest)
  else
    let name := req.name.getD ""
    match t.find? (fun r => r.names = name) with
    | some row =>
        let oldCount : ℕ := if row.match_count = 0 then 1 else row.match_count
        let newCount := oldCount + 1
        let newFeed := jsDiv (jsAdd (jsMul row.feedscore (.fin (oldCount : ℚ)))
          (.fin req.feedscore)) (.fin (newCount : ℚ))
        let newOp := jsDiv (jsAdd (jsMul row.opscore (.fin (oldCount : ℚ)))
          (.fin req.opscore)) (.fin (newCount : ℚ))
        let upd : SPRow → SPRow := fun r =>
          if r.names = name then
            { r with feedscore := newFeed, opscore := newOp,
                     country := req.country, match_count := newCount }
          else r
        (t.map upd,
         .updated { names := name, feedscore := newFeed, opscore := newOp,
                    country := req.country, match_count := newCount })
    | none =>
        let r : SPRow := { names := name, feedscore := .fin req.feedscore,
                           opscore := .fin req.opscore, country := req.country,
                           match_count := 1 }
        (t ++ [r], .inserted r)

/-- A `/api/save-match` request body: the optional `metadata.matchId` chain
and the rest of the document, opaque to the handler. -/
structure MatchDoc where
  matchId : Option String
  payload : String
deriving DecidableEq, Repr

/-- The response of `/api/save-match`. -/
inductive SaveMatchResp where
  | missingId
  | alreadyExists
  | saved
deriving DecidableEq, Repr

/-- The HTTP status code attached to each `/api/save-match` response. -/
def saveMatchStatus : SaveMatchResp → ℕ
  | .missingId => 400
  | .alreadyExists => 200
  | .saved => 201

/-- The `/api/save-match` handler over the matches directory (a map from
matchId to stored document): falsy `matchId` → 400 and no write; an
existing `<matchId>.json` → 200 and no write; otherwise write the document
and return 201. -/
def saveMatch (store : List (String × MatchDoc)) (req : MatchDoc) :
    List (String × MatchDoc) × SaveMatchResp :=
  if strFalsy req.matchId then (store, .missingId)
  else
    let mid := req.matchId.getD ""
    if store.any (fun e => e.1 = mid) then (store, .alreadyExists)
    else (store ++ [(mid, req)], .saved)

/-- The `INSERT OR REPLACE` loop over the final `playersMap`. -/
def upsertEntries (t : List Row) (entries : List (String × Agg)) : List Row :=
  entries.foldl (fun acc e => upsertRow acc (rowOfEntry e)) t

/-- The last map entry with key `k`, if any (the last `INSERT OR REPLACE`
wins). -/
def lastHit (k : String) : List (String × Agg) → Option (String × Agg)
  | [] => none
  | e :: rest =>
      match lastHit k rest with
      | some e' => some e'
      | none => if e.1 = k then some e else none

/-- A corpus document that parses and has the `info.participants` shape. -/
def isValidFile : MatchFile → Bool
  | .valid _ _ => true
  | _ => false

/-- Total of the `match_count` fields over the in-memory aggregates. -/
def sumCounts (m : List (String × Agg)) : ℕ :=
  (m.map (fun e => e.2.match_count)).sum

/-- Total of the `match_count` column over a `players` table. -/
def tableCounts (t : List Row) : ℕ :=
  (t.map (fun r => r.match_count)).sum

/-- The number of participant observations one document contributes. -/
def fileObs : MatchFile → ℕ
  | .valid _ ps => ps.countP (fun p => !strFalsy p.puuid)
  | _ => 0

/-- Specification helper: the (name, feedscore, raw opscore) observation one
participant contributes under a given match duration. -/
def obsOfPart (durMin : JSNum) (p : Participant) : String × ℚ × JSNum :=
  (strOr p.riotIdGameName "Unknown" ++ "#" ++ strOr p.riotIdTagline "Unknown",
   feedscoreOf p, rawOpScoreOf durMin p)

/-- Specification helper: whether a participant record belongs to puuid `k`
(non-falsy puuid equal to `k`). -/
def isObsOf (k : String) (p : Participant) : Bool :=
  !strFalsy p.puuid && decide (p.puuid.getD "" = k)

/-- Specification helper: the observations puuid `k` contributes across the
corpus, in processing order. -/
def obsOf (k : String) : List MatchFile → List (String × ℚ × JSNum)
  | [] => []
  | .valid dur ps :: rest =>
      (ps.filter (isObsOf k)).map (obsOfPart (durationMinutes dur)) ++ obsOf k rest
  | .malformed :: rest => obsOf k rest
  | .badShape :: rest => obsOf k rest

/-- Folding one observation into a player's optional aggregate: first
observation creates the aggregate, later ones merge. -/
def obsStep (acc : Option Agg) (ob : String × ℚ × JSNum) : Option Agg :=
  match acc with
  | none => some ⟨[ob.1], ob.2.1, ob.2.2, 1, none⟩
  | some a => some (mergeAgg a ob.1 ob.2.1 ob.2.2)

/-- The i-th calibration anchor (score, grade). -/
def anchor (i : ℕ) : ℚ × ℚ := thresholds.getD i (0, 0)

theorem qadd_eq (a b : ℚ) : qadd a b = a + b := by
  have ha : ((a.den : ℚ)) ≠ 0 := by exact_mod_cast a.den_nz
  have hb : ((b.den : ℚ)) ≠ 0 := by exact_mod_cast b.den_nz
  rw [qadd, Rat.divInt_eq_div]
  push_cast
  conv_rhs => rw [← Rat.num_div_den a, ← Rat.num_div_den b]
  rw [div_add_div _ _ ha hb]
  congr 1
  ring

theorem qsub_eq (a b : ℚ) : qsub a b = a - b := by
  have ha : ((a.den : ℚ)) ≠ 0 := by exact_mod_cast a.den_nz
  have hb : ((b.den : ℚ)) ≠ 0 := by exact_mod_cast b.den_nz
  rw [qsub, Rat.divInt_eq_div]
  push_cast
  conv_rhs => rw [← Rat.num_div_den a, ← Rat.num_div_den b]
  rw [div_sub_div _ _ ha hb]
  congr 1
  ring

theorem qmul_eq (a b : ℚ) : qmul a b = a * b := by
  have ha : ((a.den : ℚ)) ≠ 0 := by exact_mod_cast a.den_nz
  have hb : ((b.den : ℚ)) ≠ 0 := by exact_mod_cast b.den_nz
  rw [qmul, Rat.divInt_eq_div]
  push_cast
  conv_rhs => rw [← Rat.num_div_den a, ← Rat.num_div_den b]
  rw [div_mul_div_comm]

theorem qdiv_eq (a b : ℚ) : qdiv a b = a / b := by
  have ha : ((a.den : ℚ)) ≠ 0 := by exact_mod_cast a.den_nz
  have hb : ((b.den : ℚ)) ≠ 0 := by exact_mod_cast b.den_nz
  rcases eq_or_ne b 0 with rfl | hbne
  · simp [qdiv, Rat.divInt_eq_div]
  · have hbn : ((b.num : ℚ)) ≠ 0 := by
      simpa [Rat.num_eq_zero] using hbne
    rw [qdiv, Rat.divInt_eq_div]
    push_cast
    conv_rhs => rw [← Rat.num_div_den a, ← Rat.num_div_den b]
    field_simp

theorem lookupRow_cons (x : Row) (t : List Row) (k : Option String) :
    lookupRow (x :: t) k = if x.puuid = k then some x else lookupRow t k := by
  by_cases h : x.puuid = k <;> simp [lookupRow, List.find?_cons, h]

theorem lookupRow_replacePK_self (k : String) (r : Row) (hr : r.puuid = some k) :
    ∀ t : List Row, lookupRow (replacePK k r t) (some k) = some r := by
  intro t
  induction t with
  | nil => simp [replacePK, lookupRow, List.find?_cons, hr]
  | cons x rest ih =>
      by_cases h : x.puuid = some k
      · simp [replacePK, h, lookupRow, List.find?_cons, hr]
      · simp only [replacePK, h, if_false, lookupRow_cons, if_neg h]
        exact ih

theorem lookupRow_replacePK_other (k : String) (r : Row) (k' : Option String)
    (hr : r.puuid = some k) (hk : k' ≠ some k) : ∀ t : List Row,
    lookupRow (replacePK k r t) k' = lookupRow t k' := by
  intro t
  induction t with
  | nil =>
      simp [replacePK, lookupRow, List.find?_cons, hr, Ne.symm hk]
  | cons x rest ih =>
      by_cases h : x.puuid = some k
      · rw [replacePK, if_pos h, lookupRow_cons, lookupRow_cons, hr, h,
          if_neg (Ne.symm hk), if_neg (Ne.symm hk)]
      · rw [replacePK, if_neg h, lookupRow_cons, lookupRow_cons, ih]

theorem lookupRow_upsert_self (t : List Row) (r : Row) (k : String)
    (hr : r.puuid = some k) : lookupRow (upsertRow t r) (some k) = some r := by
  rw [upsertRow, hr]
  exact lookupRow_replacePK_self k r hr t

theorem lookupRow_upsert_other (t : List Row) (r : Row) (k : String)
    (k' : Option String) (hr : r.puuid = some k) (hk : k' ≠ some k) :
    lookupRow (upsertRow t r) k' = lookupRow t k' := by
  rw [upsertRow, hr]
  exact lookupRow_replacePK_other k r k' hr hk t

theorem zeroScoresRow_puuid (r : Row) : (zeroScoresRow r).puuid = r.puuid := rfl

theorem zeroScoresRow_idem (r : Row) : zeroScoresRow (zeroScoresRow r) = zeroScoresRow r := rfl

theorem lookupRow_zeroScores (t : List Row) (k : Option String) :
    lookupRow (zeroScores t) k = (lookupRow t k).map zeroScoresRow := by
  induction t with
  | nil => rfl
  | cons x rest ih =>
      rw [zeroScores, List.map_cons, lookupRow_cons, lookupRow_cons,
        zeroScoresRow_puuid]
      by_cases h : x.puuid = k
      · rw [if_pos h, if_pos h]; rfl
      · rw [if_neg h, if_neg h, ← zeroScores, ih]

theorem normalizePlayersByPuuid_eq (corpus : List MatchFile) (t : List Row) :
    normalizePlayersByPuuid corpus t =
      upsertEntries (zeroScores t) (buildState corpus).playersMap := rfl

theorem rowOfEntry_puuid (e : String × Agg) : (rowOfEntry e).puuid = some e.1 := rfl

theorem lookupRow_upsertEntries (entries : List (String × Agg)) :
    ∀ (t : List Row) (k : String),
    lookupRow (upsertEntries t entries) (some k) =
      match lastHit k entries with
      | some e => some (rowOfEntry e)
      | none => lookupRow t (some k) := by
  induction entries with
  | nil => intro t k; rfl
  | cons e rest ih =>
      intro t k
      rw [upsertEntries, List.foldl_cons, ← upsertEntries, ih]
      conv_rhs => rw [lastHit]
      cases hl : lastHit k rest with
      | some e' => rfl
      | none =>
          by_cases h : e.1 = k
          · rw [if_pos h, ← h]
            exact lookupRow_upsert_self t (rowOfEntry e) e.1 (rowOfEntry_puuid e)
          · rw [if_neg h]
            exact lookupRow_upsert_other t (rowOfEntry e) e.1 (some k)
              (rowOfEntry_puuid e) (by simpa using Ne.symm h)

theorem lookupRow_upsertEntries_none (entries : List (String × Agg)) :
    ∀ t : List Row, lookupRow (upsertEntries t entries) none = lookupRow t none := by
  induction entries with
  | nil => intro t; rfl
  | cons e rest ih =>
      intro t
      rw [upsertEntries, List.foldl_cons, ← upsertEntries, ih,
        lookupRow_upsert_other t (rowOfEntry e) e.1 none (rowOfEntry_puuid e)
          (by simp)]

/-- C7: running the full rebuild twice on an unchanged corpus is idempotent —
for every key, the row stored after the second `normalizePlayersByPuuid` run
equals the row stored after the first. -/
theorem normalizePlayersByPuuid_idempotent (corpus : List MatchFile)
    (t : List Row) (k : Option String) :
    lookupRow (normalizePlayersByPuuid corpus (normalizePlayersByPuuid corpus t)) k =
      lookupRow (normalizePlayersByPuuid corpus t) k := by
  rw [normalizePlayersByPuuid_eq, normalizePlayersByPuuid_eq]
  cases k with
  | none =>
      simp only [lookupRow_upsertEntries_none, lookupRow_zeroScores]
      cases lookupRow t none with
      | none => rfl
      | some r => simp [zeroScoresRow_idem]
  | some s =>
      rw [lookupRow_upsertEntries, lookupRow_upsertEntries]
      cases hl : lastHit s (buildState corpus).playersMap with
      | some e => rfl
      | none =>
          simp only [lookupRow_zeroScores, lookupRow_upsertEntries, hl]
          cases lookupRow t (some s) with
          | none => rfl
          | some r => simp [zeroScoresRow_idem]

theorem strFalsy_some_false (s : String) (h : s ≠ "") :
    strFalsy (some s) = false :=
  Bool.eq_false_iff.mpr (fun hh => h ((String.isEmpty_iff s).mp hh))

/-- C9: `/api/save-match` — a body lacking `metadata.matchId` gets 400 and
writes nothing; an id whose document already exists gets 200 with the stored
file unchanged; otherwise the document is written and 201 is returned; and a
second save of the same body never changes the store again. -/
theorem saveMatch_spec (store : List (String × MatchDoc)) (req : MatchDoc) :
    (strFalsy req.matchId = true →
      saveMatch store req = (store, .missingId) ∧
      saveMatchStatus (saveMatch store req).2 = 400) ∧
    (∀ mid : String, req.matchId = some mid → mid ≠ "" →
      (store.any (fun e => e.1 = mid) = true →
        saveMatch store req = (store, .alreadyExists) ∧
        saveMatchStatus (saveMatch store req).2 = 200) ∧
      (store.any (fun e => e.1 = mid) = false →
        saveMatch store req = (store ++ [(mid, req)], .saved) ∧
        saveMatchStatus (saveMatch store req).2 = 201)) ∧
    (saveMatch (saveMatch store req).1 req).1 = (saveMatch store req).1 := by
  refine ⟨?_, ?_, ?_⟩
  · intro h
    have h1 : saveMatch store req = (store, .missingId) := by
      rw [saveMatch, if_pos h]
    exact ⟨h1, by rw [h1]; rfl⟩
  · intro mid hmid hne
    have hf : strFalsy req.matchId = false := by
      rw [hmid]; exact strFalsy_some_false mid hne
    constructor
    · intro ha
      have h1 : saveMatch store req = (store, .alreadyExists) := by
        rw [saveMatch, hf]
        simp only [Bool.false_eq_true, if_false, hmid, Option.getD_some, ha, if_true]
      exact ⟨h1, by rw [h1]; rfl⟩
    · intro ha
      have h1 : saveMatch store req = (store ++ [(mid, req)], .saved) := by
        rw [saveMatch, hf]
        simp only [Bool.false_eq_true, if_false, hmid, Option.getD_some, ha]
      exact ⟨h1, by rw [h1]; rfl⟩
  · by_cases h : strFalsy req.matchId = true
    · have h1 : saveMatch store req = (store, .missingId) := by
        rw [saveMatch, if_pos h]
      simp only [h1]
    · have hf : strFalsy req.matchId = false := Bool.eq_false_iff.mpr h
      cases hmid : req.matchId with
      | none => rw [hmid] at hf; exact absurd hf (by decide)
      | some mid =>
          by_cases ha : store.any (fun e => e.1 = mid) = true
          · have h1 : saveMatch store req = (store, .alreadyExists) := by
              rw [saveMatch, hf]
              simp only [Bool.false_eq_true, if_false, hmid, Option.getD_some,
                ha, if_true]
            simp only [h1]
          · have ha' : store.any (fun e => e.1 = mid) = false :=
              Bool.eq_false_iff.mpr ha
            have h1 : saveMatch store req = (store ++ [(mid, req)], .saved) := by
              rw [saveMatch, hf]
              simp only [Bool.false_eq_true, if_false, hmid, Option.getD_some, ha']
            have hb : (store ++ [(mid, req)]).any (fun e => e.1 = mid) = true := by
              simp [List.any_append]
            have h2 : saveMatch (store ++ [(mid, req)]) req =
                (store ++ [(mid, req)], .alreadyExists) := by
              rw [saveMatch, hf]
              simp only [Bool.false_eq_true, if_false, hmid, Option.getD_some,
                hb, if_true]
            simp only [h1, h2]

/-- Witness for C9 at concrete inputs: a missing id is rejected without a
write, a duplicate id leaves the store unchanged with 200, and a fresh id is
stored with 201. -/
theorem saveMatch_spec_witness :
    saveMatch [] ⟨none, "doc"⟩ = ([], .missingId) ∧
    saveMatch [("M1", ⟨some "M1", "old"⟩)] ⟨some "M1", "new"⟩ =
      ([("M1", ⟨some "M1", "old"⟩)], .alreadyExists) ∧
    saveMatch [] ⟨some "M2", "doc"⟩ = ([("M2", ⟨some "M2", "doc"⟩)], .saved) :=
  ⟨((saveMatch_spec [] ⟨none, "doc"⟩).1 (by decide)).1,
   (((saveMatch_spec [("M1", ⟨some "M1", "old"⟩)] ⟨some "M1", "new"⟩).2.1 "M1"
      rfl (by decide)).1 (by decide)).1,
   (((saveMatch_spec [] ⟨some "M2", "doc"⟩).2.1 "M2" rfl (by decide)).2
      (by decide)).1⟩

/-- C6: `/api/save-player` — an unknown player is inserted with
`match_count = 1` and the per-match scores stored directly; a known player's
stored scores become `(old * oldCount + new) / (oldCount + 1)` and the count
is incremented by exactly 1.  The stored values are exactly these raw
formulas: no score normalization is applied in this mode. -/
theorem savePlayer_spec (t : List SPRow) (req : SPReq) (name : String)
    (hname : req.name = some name) (hne : name ≠ "") :
    (t.find? (fun r => r.names = name) = none →
      savePlayer t req =
        (t ++ [⟨name, .fin req.feedscore, .fin req.opscore, req.country, 1⟩],
         .inserted ⟨name, .fin req.feedscore, .fin req.opscore, req.country, 1⟩)) ∧
    (∀ row : SPRow, t.find? (fun r => r.names = name) = some row →
      ∀ f o : ℚ, row.feedscore = .fin f → row.opscore = .fin o →
      1 ≤ row.match_count →
      (savePlayer t req).1 =
        t.map (fun r => if r.names = name then
          { r with
            feedscore := JSNum.fin ((f * row.match_count + req.feedscore) /
              (row.match_count + 1))
            opscore := JSNum.fin ((o * row.match_count + req.opscore) /
              (row.match_count + 1))
            country := req.country
            match_count := row.match_count + 1 }
          else r)) := by
  have hf : strFalsy req.name = false := by
    rw [hname]; exact strFalsy_some_false name hne
  constructor
  · intro hfind
    rw [savePlayer, hf]
    simp only [Bool.false_eq_true, if_false, hname, Option.getD_some, hfind]
  · intro row hfind f o hfeed hop hcount
    rw [savePlayer, hf]
    simp only [Bool.false_eq_true, if_false, hname, Option.getD_some, hfind]
    have hoc : (if row.match_count = 0 then 1 else row.match_count) =
        row.match_count := if_neg (by omega)
    have hcast : ((row.match_count + 1 : ℕ) : ℚ) ≠ 0 := by
      push_cast
      positivity
    simp only [hoc, hfeed, hop, jsMul, jsAdd, jsDiv, if_neg hcast, qmul_eq,
      qadd_eq, qdiv_eq]
    congr 1
    funext r
    by_cases hr : r.names = name
    · rw [if_pos hr, if_pos hr]
      push_cast
      rfl
    · rw [if_neg hr, if_neg hr]

/-- Witness for C6: a fresh name is inserted with count 1; saving the same
name again yields the running average over 2 matches. -/
theorem savePlayer_spec_witness :
    savePlayer [] ⟨some "A#B", 2, 6, some "X"⟩ =
      ([⟨"A#B", .fin 2, .fin 6, some "X", 1⟩],
       .inserted ⟨"A#B", .fin 2, .fin 6, some "X", 1⟩) ∧
    (savePlayer [⟨"A#B", .fin 2, .fin 6, some "X", 1⟩] ⟨some "A#B", 4, 0, some "X"⟩).1 =
      [⟨"A#B", .fin 3, .fin 3, some "X", 2⟩] := by
  constructor
  · exact (savePlayer_spec [] ⟨some "A#B", 2, 6, some "X"⟩ "A#B" rfl
      (by decide)).1 (by decide)
  · have h := (savePlayer_spec [⟨"A#B", .fin 2, .fin 6, some "X", 1⟩]
      ⟨some "A#B", 4, 0, some "X"⟩ "A#B" rfl (by decide)).2
      ⟨"A#B", .fin 2, .fin 6, some "X", 1⟩ (by decide) 2 6 rfl rfl (by decide)
    rw [h]
    norm_num

/-- C2 evidence (the code lacks the guard the spec requires): a match
document with `gameDuration = 0` whose only participant earned 500 gold is
still counted by the full rebuild, and `Infinity` (the JS result of
`500 / 0`) enters that player's `opscoreSum` instead of the match being
excluded. -/
theorem zeroDuration_infinity_enters_opscoreSum :
    (buildState [MatchFile.valid (some 0)
        [⟨some "Z", none, none, some 0, some 0, some 0, some 500, some 0⟩]]).totalMatches = 1 ∧
    lookupAgg (buildState [MatchFile.valid (some 0)
        [⟨some "Z", none, none, some 0, some 0, some 0, some 500, some 0⟩]]).playersMap "Z" =
      some ⟨["Unknown#Unknown"], 0, .posInf, 1, none⟩ := by decide

/-- C3 counterexample: a player row with a previously classified country
(`"HU"`) whose puuid occurs in the corpus does `NOT` retain that country
through a full rebuild — the `INSERT OR REPLACE` writes the in-memory
entry's `null` country over it. -/
theorem rebuild_clobbers_country_of_corpus_player :
    (lookupRow
        (normalizePlayersByPuuid
          [MatchFile.valid (some 1800)
            [⟨some "P", some "Alice", some "EUW", some 1, some 2, some 3,
              some 600, some 10⟩]]
          [⟨some "P", ["Old#EUW"], .fin 1, .fin 2, some "HU", 3⟩])
        (some "P")).map Row.country = some none := by decide

theorem lastHit_eq_some (k : String) (e' : String × Agg) :
    ∀ l : List (String × Agg), lastHit k l = some e' → e' ∈ l ∧ e'.1 = k := by
  intro l
  induction l with
  | nil => intro h; exact absurd h (by simp [lastHit])
  | cons e rest ih =>
      intro h
      rw [lastHit] at h
      cases hl : lastHit k rest with
      | some x =>
          rw [hl] at h
          obtain ⟨h1, h2⟩ := ih (hl.trans h)
          exact ⟨List.mem_cons_of_mem _ h1, h2⟩
      | none =>
          rw [hl] at h
          by_cases hk : e.1 = k
          · rw [if_pos hk] at h
            cases h
            exact ⟨List.mem_cons_self _ _, hk⟩
          · rw [if_neg hk] at h
            cases h

theorem lastHit_eq_none (k : String) :
    ∀ l : List (String × Agg), lastHit k l = none → ∀ e ∈ l, e.1 ≠ k := by
  intro l
  induction l with
  | nil => intro _ e he; exact absurd he (by simp)
  | cons e rest ih =>
      intro h x hx
      rw [lastHit] at h
      cases hl : lastHit k rest with
      | some y => rw [hl] at h; cases h
      | none =>
          rw [hl] at h
          by_cases hk : e.1 = k
          · rw [if_pos hk] at h; cases h
          · rw [if_neg hk] at h
            rcases List.mem_cons.mp hx with rfl | hx'
            · exact hk
            · exact ih hl x hx'

theorem lastHit_of_mem (k : String) (l : List (String × Agg))
    (h : ∃ e ∈ l, e.1 = k) : ∃ e', lastHit k l = some e' ∧ e' ∈ l ∧ e'.1 = k := by
  cases hl : lastHit k l with
  | some e' => exact ⟨e', rfl, lastHit_eq_some k e' l hl⟩
  | none =>
      obtain ⟨e, he, hk⟩ := h
      exact absurd hk (lastHit_eq_none k l hl e he)

theorem mergeAgg_country (a : Agg) (n : String) (f : ℚ) (op : JSNum) :
    (mergeAgg a n f op).country = a.country := rfl

theorem addObs_country_none (k : String) (n : String) (f : ℚ) (op : JSNum) :
    ∀ m : List (String × Agg), (∀ e ∈ m, e.2.country = none) →
    ∀ e ∈ addObs m k n f op, e.2.country = none := by
  intro m
  induction m with
  | nil =>
      intro _ e he
      rw [addObs] at he
      rcases List.mem_singleton.mp he with rfl
      rfl
  | cons x rest ih =>
      intro hm e he
      rw [addObs] at he
      by_cases hk : x.1 = k
      · rw [if_pos hk] at he
        rcases List.mem_cons.mp he with rfl | he'
        · exact hm x (List.mem_cons_self _ _)
        · exact hm e (List.mem_cons_of_mem _ he')
      · rw [if_neg hk] at he
        rcases List.mem_cons.mp he with rfl | he'
        · exact hm e (List.mem_cons_self _ _)
        · exact ih (fun y hy => hm y (List.mem_cons_of_mem _ hy)) e he'

theorem processParticipant_country_none (durMin : JSNum) (p : Participant)
    (m : List (String × Agg)) (hm : ∀ e ∈ m, e.2.country = none) :
    ∀ e ∈ processParticipant durMin m p, e.2.country = none := by
  rw [processParticipant]
  by_cases hp : strFalsy p.puuid = true
  · rw [if_pos hp]; exact hm
  · rw [if_neg hp]
    exact addObs_country_none _ _ _ _ m hm

theorem participants_fold_country_none (durMin : JSNum) :
    ∀ (ps : List Participant) (m : List (String × Agg)),
    (∀ e ∈ m, e.2.country = none) →
    ∀ e ∈ ps.foldl (processParticipant durMin) m, e.2.country = none := by
  intro ps
  induction ps with
  | nil => intro m hm; exact hm
  | cons p rest ih =>
      intro m hm
      rw [List.foldl_cons]
      exact ih _ (processParticipant_country_none durMin p m hm)

theorem buildState_country_none (corpus : List MatchFile) :
    ∀ e ∈ (buildState corpus).playersMap, e.2.country = none := by
  rw [buildState]
  generalize hst : (⟨[], 0, 0⟩ : RunState) = st
  have hst0 : ∀ e ∈ st.playersMap, e.2.country = none := by
    rw [← hst]; intro e he; exact absurd he (by simp)
  clear hst
  induction corpus generalizing st with
  | nil => exact hst0
  | cons f rest ih =>
      rw [List.foldl_cons]
      refine ih _ ?_
      cases f with
      | malformed => exact hst0
      | badShape => exact hst0
      | valid dur ps =>
          exact participants_fold_country_none (durationMinutes dur) ps
            st.playersMap hst0

/-- C3 amended: the score-reset UPDATE zeroes only feedscore, opscore and
match_count and never touches country; a player row whose puuid does not
occur in the corpus keeps its previously written country through the whole
rebuild; but the row of every player that does occur in the corpus is
replaced with country = null, so the previously written classification
survives a full rebuild only for players absent from the corpus. -/
theorem rebuild_country_effect (corpus : List MatchFile) (t : List Row) :
    (∀ r : Row, (zeroScoresRow r).country = r.country ∧
       (zeroScoresRow r).names = r.names ∧ (zeroScoresRow r).puuid = r.puuid ∧
       (zeroScoresRow r).feedscore = .fin 0 ∧ (zeroScoresRow r).opscore = .fin 0 ∧
       (zeroScoresRow r).match_count = 0) ∧
    (∀ k : String, (∀ e ∈ (buildState corpus).playersMap, e.1 ≠ k) →
       (lookupRow (normalizePlayersByPuuid corpus t) (some k)).map Row.country =
         (lookupRow t (some k)).map Row.country) ∧
    (∀ k : String, (∃ e ∈ (buildState corpus).playersMap, e.1 = k) →
       ∃ row : Row, lookupRow (normalizePlayersByPuuid corpus t) (some k) = some row ∧
         row.country = none) := by
  refine ⟨fun r => ⟨rfl, rfl, rfl, rfl, rfl, rfl⟩, ?_, ?_⟩
  · intro k hk
    cases hl : lastHit k (buildState corpus).playersMap with
    | some e =>
        obtain ⟨hmem, hkey⟩ := lastHit_eq_some k e _ hl
        exact absurd hkey (hk e hmem)
    | none =>
        rw [normalizePlayersByPuuid_eq, lookupRow_upsertEntries, hl,
          lookupRow_zeroScores]
        cases lookupRow t (some k) with
        | none => rfl
        | some r => rfl
  · intro k hex
    obtain ⟨e', hl, hmem, hkey⟩ := lastHit_of_mem k _ hex
    rw [normalizePlayersByPuuid_eq, lookupRow_upsertEntries, hl]
    exact ⟨rowOfEntry e', rfl, buildState_country_none corpus e' hmem⟩

/-- Witness for C3 (amended) at a concrete database and corpus: the player
absent from the corpus keeps country `"DE"`; the player present in the
corpus ends with country null. -/
theorem rebuild_country_effect_witness :
    (lookupRow
        (normalizePlayersByPuuid
          [MatchFile.valid (some 1800)
            [⟨some "P", some "Alice", some "EUW", some 1, some 2, some 3,
              some 600, some 10⟩]]
          [⟨some "P", ["Old#EUW"], .fin 1, .fin 2, some "HU", 3⟩,
           ⟨some "Q", ["X#Y"], .fin 1, .fin 2, some "DE", 7⟩])
        (some "Q")).map Row.country = some (some "DE") ∧
    (∃ row : Row, lookupRow
        (normalizePlayersByPuuid
          [MatchFile.valid (some 1800)
            [⟨some "P", some "Alice", some "EUW", some 1, some 2, some 3,
              some 600, some 10⟩]]
          [⟨some "P", ["Old#EUW"], .fin 1, .fin 2, some "HU", 3⟩,
           ⟨some "Q", ["X#Y"], .fin 1, .fin 2, some "DE", 7⟩])
        (some "P") = some row ∧ row.country = none) := by
  constructor
  · exact ((rebuild_country_effect _ _).2.1 "Q" (by decide)).trans (by decide)
  · exact (rebuild_country_effect _ _).2.2 "P" (by decide)

theorem addParts_frame (t : List Row) :
    ∀ (ps : List Participant) (new : List Row) (n : ℕ),
    (∀ r ∈ new, r.match_count = 1 ∧ r.country = some " ") →
    (new.map (fun r => r.puuid)).Nodup →
    (∀ r ∈ new, r.puuid ∉ t.map (fun x => x.puuid)) →
    ∃ (new' : List Row) (n' : ℕ),
      ps.foldl addParticipant ⟨t ++ new, (t ++ new).map (fun x => x.puuid), n⟩ =
        ⟨t ++ new', (t ++ new').map (fun x => x.puuid), n'⟩ ∧
      (∀ r ∈ new', r.match_count = 1 ∧ r.country = some " ") ∧
      (new'.map (fun r => r.puuid)).Nodup ∧
      (∀ r ∈ new', r.puuid ∉ t.map (fun x => x.puuid)) := by
  intro ps
  induction ps with
  | nil => intro new n h1 h2 h3; exact ⟨new, n, rfl, h1, h2, h3⟩
  | cons p rest ih =>
      intro new n h1 h2 h3
      rw [List.foldl_cons]
      by_cases hmem : p.puuid ∈ (t ++ new).map (fun x => x.puuid)
      · rw [addParticipant, if_pos hmem]
        exact ih new n h1 h2 h3
      · rw [addParticipant, if_neg hmem]
        have hnt : p.puuid ∉ t.map (fun x => x.puuid) := by
          intro hx
          exact hmem (by rw [List.map_append]; exact List.mem_append_left _ hx)
        have hnn : p.puuid ∉ new.map (fun r => r.puuid) := by
          intro hx
          exact hmem (by rw [List.map_append]; exact List.mem_append_right _ hx)
        set row : Row :=
          { puuid := p.puuid, names := [addNameOf p],
            feedscore := addFeedscoreOf p, opscore := addOpscoreOf p,
            country := some " ", match_count := 1 } with hrow
        have e1 : t ++ new ++ [row] = t ++ (new ++ [row]) := by
          rw [List.append_assoc]
        have e2 : (t ++ new).map (fun x => x.puuid) ++ [p.puuid] =
            (t ++ (new ++ [row])).map (fun x => x.puuid) := by
          simp [hrow]
        rw [e1, e2]
        refine ih (new ++ [row]) (n + 1) ?_ ?_ ?_
        · intro r hr
          rcases List.mem_append.mp hr with hr' | hr'
          · exact h1 r hr'
          · rcases List.mem_singleton.mp hr' with rfl
            exact ⟨rfl, rfl⟩
        · rw [List.map_append]
          simp only [List.map_cons, List.map_nil]
          rw [List.nodup_append]
          exact ⟨h2, List.nodup_singleton _, by
            intro x hx hx'
            rcases List.mem_singleton.mp hx' with rfl
            exact hnn hx⟩
        · intro r hr
          rcases List.mem_append.mp hr with hr' | hr'
          · exact h3 r hr'
          · rcases List.mem_singleton.mp hr' with rfl
            exact hnt

theorem addFiles_frame (t : List Row) :
    ∀ (files : List MatchFile) (new : List Row) (n : ℕ),
    (∀ r ∈ new, r.match_count = 1 ∧ r.country = some " ") →
    (new.map (fun r => r.puuid)).Nodup →
    (∀ r ∈ new, r.puuid ∉ t.map (fun x => x.puuid)) →
    ∃ (new' : List Row) (n' : ℕ) (ok : Bool),
      addFiles ⟨t ++ new, (t ++ new).map (fun x => x.puuid), n⟩ files =
        (⟨t ++ new', (t ++ new').map (fun x => x.puuid), n'⟩, ok) ∧
      (∀ r ∈ new', r.match_count = 1 ∧ r.country = some " ") ∧
      (new'.map (fun r => r.puuid)).Nodup ∧
      (∀ r ∈ new', r.puuid ∉ t.map (fun x => x.puuid)) := by
  intro files
  induction files with
  | nil => intro new n h1 h2 h3; exact ⟨new, n, true, rfl, h1, h2, h3⟩
  | cons f rest ih =>
      intro new n h1 h2 h3
      cases f with
      | malformed => exact ⟨new, n, false, rfl, h1, h2, h3⟩
      | badShape => exact ⟨new, n, false, rfl, h1, h2, h3⟩
      | valid dur ps =>
          rw [addFiles]
          obtain ⟨new', n', heq, h1', h2', h3'⟩ :=
            addParts_frame t ps new n h1 h2 h3
          rw [heq]
          exact ih new' n' h1' h2' h3'

/-- C10: `addNewPlayersFromMatches` never updates or deletes an existing
row — the resulting table is the original table followed by the newly
inserted rows, each of which has `match_count = 1` and the `" "` country
placeholder, whose puuids are pairwise distinct (a puuid seen in several
matches of one run is inserted at most once) and none of which was already
present in the table. -/
theorem addNewPlayersFromMatches_frame (corpus : List MatchFile) (t : List Row) :
    ∃ new : List Row,
      (addNewPlayersFromMatches corpus t).1 = t ++ new ∧
      (∀ r ∈ new, r.match_count = 1 ∧ r.country = some " ") ∧
      (new.map (fun r => r.puuid)).Nodup ∧
      (∀ r ∈ new, r.puuid ∉ t.map (fun x => x.puuid)) := by
  obtain ⟨new', n', ok, heq, h1, h2, h3⟩ :=
    addFiles_frame t corpus [] 0 (by simp) (by simp) (by simp)
  refine ⟨new', ?_, h1, h2, h3⟩
  rw [addNewPlayersFromMatches]
  simp only [List.append_nil] at heq
  rw [heq]

theorem processFile_playersMap_congr (f : MatchFile) (st st' : RunState)
    (h : st.playersMap = st'.playersMap) :
    (processFile st f).playersMap = (processFile st' f).playersMap := by
  cases f with
  | malformed => exact h
  | badShape => exact h
  | valid dur ps => simp only [processFile, h]

theorem foldl_processFile_playersMap_congr :
    ∀ (corpus : List MatchFile) (st st' : RunState),
    st.playersMap = st'.playersMap →
    (corpus.foldl processFile st).playersMap =
      (corpus.foldl processFile st').playersMap := by
  intro corpus
  induction corpus with
  | nil => intro st st' h; exact h
  | cons f rest ih =>
      intro st st' h
      rw [List.foldl_cons, List.foldl_cons]
      exact ih _ _ (processFile_playersMap_congr f st st' h)

theorem foldl_processFile_skipped :
    ∀ (corpus : List MatchFile) (st : RunState),
    (corpus.foldl processFile st).skippedFiles =
      st.skippedFiles + corpus.countP (fun f => !isValidFile f) := by
  intro corpus
  induction corpus with
  | nil => intro st; simp
  | cons f rest ih =>
      intro st
      rw [List.foldl_cons, ih, List.countP_cons]
      cases f with
      | malformed => simp [processFile, isValidFile]; omega
      | badShape => simp [processFile, isValidFile]; omega
      | valid dur ps => simp [processFile, isValidFile]

theorem foldl_processFile_matches :
    ∀ (corpus : List MatchFile) (st : RunState),
    (corpus.foldl processFile st).totalMatches =
      st.totalMatches + corpus.countP (fun f => isValidFile f) := by
  intro corpus
  induction corpus with
  | nil => intro st; simp
  | cons f rest ih =>
      intro st
      rw [List.foldl_cons, ih, List.countP_cons]
      cases f with
      | malformed => simp [processFile, isValidFile]
      | badShape => simp [processFile, isValidFile]
      | valid dur ps => simp [processFile, isValidFile]; omega

theorem foldl_processFile_filter :
    ∀ (corpus : List MatchFile) (st : RunState),
    (corpus.foldl processFile st).playersMap =
      ((corpus.filter (fun f => isValidFile f)).foldl processFile st).playersMap := by
  intro corpus
  induction corpus with
  | nil => intro st; rfl
  | cons f rest ih =>
      intro st
      cases f with
      | malformed =>
          rw [List.foldl_cons, List.filter_cons_of_neg (by simp [isValidFile])]
          rw [ih]
          exact foldl_processFile_playersMap_congr _ _ _ rfl
      | badShape =>
          rw [List.foldl_cons, List.filter_cons_of_neg (by simp [isValidFile])]
          rw [ih]
          exact foldl_processFile_playersMap_congr _ _ _ rfl
      | valid dur ps =>
          rw [List.foldl_cons, List.filter_cons_of_pos (by simp [isValidFile]),
            List.foldl_cons]
          exact ih _

theorem addFiles_stops_at_bad (bad : MatchFile) (hbad : isValidFile bad = false) :
    ∀ (pre suf : List MatchFile) (st : AddState),
    addFiles st (pre ++ bad :: suf) = addFiles st (pre ++ [bad]) ∧
    (addFiles st (pre ++ bad :: suf)).2 = false := by
  intro pre
  induction pre with
  | nil =>
      intro suf st
      cases bad with
      | malformed => exact ⟨rfl, rfl⟩
      | badShape => exact ⟨rfl, rfl⟩
      | valid dur ps => exact absurd hbad (by simp [isValidFile])
  | cons f rest ih =>
      intro suf st
      cases f with
      | malformed => exact ⟨rfl, rfl⟩
      | badShape => exact ⟨rfl, rfl⟩
      | valid dur ps =>
          rw [List.cons_append, List.cons_append, addFiles, addFiles]
          exact ih suf _

/-- C5 amended: the full-rebuild aggregation (`normalizePlayersByPuuid`)
skips each malformed or wrongly-shaped document with one recorded warning —
its skipped-file count equals the number of such documents, every valid
document is still processed (the players map equals the one built from the
valid documents alone), and the run never aborts; `addNewPlayersFromMatches`,
whose `JSON.parse` and `info.participants` access are unguarded, instead
aborts at the first bad document, leaving all later documents unprocessed. -/
theorem malformed_docs_handling :
    (∀ corpus : List MatchFile,
      (buildState corpus).skippedFiles = corpus.countP (fun f => !isValidFile f) ∧
      (buildState corpus).totalMatches = corpus.countP (fun f => isValidFile f) ∧
      (buildState corpus).playersMap =
        (buildState (corpus.filter (fun f => isValidFile f))).playersMap) ∧
    (∀ (pre suf : List MatchFile) (bad : MatchFile) (t : List Row),
      isValidFile bad = false →
      (addNewPlayersFromMatches (pre ++ bad :: suf) t).2 = false ∧
      addNewPlayersFromMatches (pre ++ bad :: suf) t =
        addNewPlayersFromMatches (pre ++ [bad]) t) := by
  constructor
  · intro corpus
    refine ⟨?_, ?_, ?_⟩
    · rw [buildState, foldl_processFile_skipped]; simp
    · rw [buildState, foldl_processFile_matches]; simp
    · rw [buildState, buildState, foldl_processFile_filter]
  · intro pre suf bad t hbad
    obtain ⟨h1, h2⟩ := addFiles_stops_at_bad bad hbad pre suf ⟨t, t.map (fun x => x.puuid), 0⟩
    constructor
    · rw [addNewPlayersFromMatches]
      exact h2
    · rw [addNewPlayersFromMatches, addNewPlayersFromMatches, h1]

/-- Witness for C5 (amended): on the corpus `[malformed, valid]` the rebuild
skips exactly one file and still aggregates the valid match's player, while
`addNewPlayersFromMatches` aborts without inserting that player. -/
theorem malformed_docs_handling_witness :
    (buildState [MatchFile.malformed,
        MatchFile.valid (some 1800)
          [⟨some "N", some "New", some "EUW", some 1, some 0, some 0, some 300,
            some 0⟩]]).skippedFiles = 1 ∧
    (addNewPlayersFromMatches [MatchFile.malformed,
        MatchFile.valid (some 1800)
          [⟨some "N", some "New", some "EUW", some 1, some 0, some 0, some 300,
            some 0⟩]] []).2 = false := by
  constructor
  · exact ((malformed_docs_handling.1 _).1).trans (by decide)
  · exact ((malformed_docs_handling.2 [] _ MatchFile.malformed [] (by decide)).1)

/-- C5 counterexample: with the corpus `[malformed, valid]`,
`addNewPlayersFromMatches` — one of the two corpus-aggregation runs the
claim quantifies over — aborts the whole batch at the malformed document:
the run reports failure and the valid document's new player is never
inserted, so the remaining valid documents are not processed. -/
theorem malformed_aborts_addNewPlayers :
    (addNewPlayersFromMatches [MatchFile.malformed,
        MatchFile.valid (some 1800)
          [⟨some "Q", some "New", some "EUW", some 1, some 0, some 0, some 300,
            some 0⟩]] []).2 = false ∧
    (addNewPlayersFromMatches [MatchFile.malformed,
        MatchFile.valid (some 1800)
          [⟨some "Q", some "New", some "EUW", some 1, some 0, some 0, some 300,
            some 0⟩]] []).1 = [] := by decide

theorem sumCounts_addObs (k : String) (n : String) (f : ℚ) (op : JSNum) :
    ∀ m : List (String × Agg), sumCounts (addObs m k n f op) = sumCounts m + 1 := by
  intro m
  induction m with
  | nil => rfl
  | cons e rest ih =>
      by_cases hk : e.1 = k
      · rw [addObs, if_pos hk]
        simp only [sumCounts, List.map_cons, List.sum_cons, mergeAgg]
        omega
      · rw [addObs, if_neg hk]
        simp only [sumCounts, List.map_cons, List.sum_cons]
        rw [show (List.map (fun e => e.2.match_count) (addObs rest k n f op)).sum
            = sumCounts (addObs rest k n f op) from rfl, ih]
        simp only [sumCounts]
        omega

theorem sumCounts_processParticipant (durMin : JSNum) (m : List (String × Agg))
    (p : Participant) :
    sumCounts (processParticipant durMin m p) =
      sumCounts m + (if strFalsy p.puuid then 0 else 1) := by
  rw [processParticipant]
  by_cases hp : strFalsy p.puuid = true
  · rw [if_pos hp, if_pos hp]; omega
  · rw [if_neg hp, if_neg hp, sumCounts_addObs]

theorem sumCounts_parts_fold (durMin : JSNum) :
    ∀ (ps : List Participant) (m : List (String × Agg)),
    sumCounts (ps.foldl (processParticipant durMin) m) =
      sumCounts m + ps.countP (fun p => !strFalsy p.puuid) := by
  intro ps
  induction ps with
  | nil => intro m; simp
  | cons p rest ih =>
      intro m
      rw [List.foldl_cons, ih, sumCounts_processParticipant, List.countP_cons]
      by_cases hp : strFalsy p.puuid = true
      · simp [hp]
      · simp [hp]
        omega

theorem sumCounts_files_fold :
    ∀ (corpus : List MatchFile) (st : RunState),
    sumCounts (corpus.foldl processFile st).playersMap =
      sumCounts st.playersMap + (corpus.map fileObs).sum := by
  intro corpus
  induction corpus with
  | nil => intro st; simp
  | cons f rest ih =>
      intro st
      rw [List.foldl_cons, ih, List.map_cons, List.sum_cons]
      cases f with
      | malformed => simp [processFile, fileObs]
      | badShape => simp [processFile, fileObs]
      | valid dur ps =>
          simp only [processFile, fileObs]
          rw [sumCounts_parts_fold]
          omega

theorem addObs_keys (k : String) (n : String) (f : ℚ) (op : JSNum) :
    ∀ m : List (String × Agg),
    (addObs m k n f op).map (fun e => e.1) =
      if k ∈ m.map (fun e => e.1) then m.map (fun e => e.1)
      else m.map (fun e => e.1) ++ [k] := by
  intro m
  induction m with
  | nil => simp [addObs]
  | cons e rest ih =>
      by_cases hk : e.1 = k
      · rw [addObs, if_pos hk]
        simp [hk]
      · rw [addObs, if_neg hk]
        simp only [List.map_cons, ih]
        by_cases hmem : k ∈ rest.map (fun e => e.1)
        · rw [if_pos hmem, if_pos (by simp [hmem])]
        · rw [if_neg hmem,
            if_neg (by simp [hmem, Ne.symm hk])]
          simp

theorem addObs_keys_nodup (k : String) (n : String) (f : ℚ) (op : JSNum)
    (m : List (String × Agg)) (h : (m.map (fun e => e.1)).Nodup) :
    ((addObs m k n f op).map (fun e => e.1)).Nodup := by
  rw [addObs_keys]
  by_cases hmem : k ∈ m.map (fun e => e.1)
  · rwa [if_pos hmem]
  · rw [if_neg hmem, List.nodup_append]
    exact ⟨h, List.nodup_singleton _, by
      intro x hx hx'
      rcases List.mem_singleton.mp hx' with rfl
      exact hmem hx⟩

theorem processParticipant_keys_nodup (durMin : JSNum) (p : Participant)
    (m : List (String × Agg)) (h : (m.map (fun e => e.1)).Nodup) :
    ((processParticipant durMin m p).map (fun e => e.1)).Nodup := by
  rw [processParticipant]
  by_cases hp : strFalsy p.puuid = true
  · rwa [if_pos hp]
  · rw [if_neg hp]
    exact addObs_keys_nodup _ _ _ _ m h

theorem parts_fold_keys_nodup (durMin : JSNum) :
    ∀ (ps : List Participant) (m : List (String × Agg)),
    (m.map (fun e => e.1)).Nodup →
    ((ps.foldl (processParticipant durMin) m).map (fun e => e.1)).Nodup := by
  intro ps
  induction ps with
  | nil => intro m h; exact h
  | cons p rest ih =>
      intro m h
      rw [List.foldl_cons]
      exact ih _ (processParticipant_keys_nodup durMin p m h)

theorem buildState_keys_nodup (corpus : List MatchFile) :
    (((buildState corpus).playersMap).map (fun e => e.1)).Nodup := by
  rw [buildState]
  generalize hst : (⟨[], 0, 0⟩ : RunState) = st
  have hst0 : (st.playersMap.map (fun e => e.1)).Nodup := by
    rw [← hst]; simp
  clear hst
  induction corpus generalizing st with
  | nil => exact hst0
  | cons f rest ih =>
      rw [List.foldl_cons]
      refine ih _ ?_
      cases f with
      | malformed => exact hst0
      | badShape => exact hst0
      | valid dur ps => exact parts_fold_keys_nodup (durationMinutes dur) ps _ hst0

theorem mem_replacePK (k : String) (r : Row) :
    ∀ (t : List Row) (row : Row), row ∈ replacePK k r t → row = r ∨ row ∈ t := by
  intro t
  induction t with
  | nil =>
      intro row h
      rcases List.mem_singleton.mp h with rfl
      exact Or.inl rfl
  | cons x rest ih =>
      intro row h
      rw [replacePK] at h
      by_cases hk : x.puuid = some k
      · rw [if_pos hk] at h
        rcases List.mem_cons.mp h with rfl | h'
        · exact Or.inl rfl
        · exact Or.inr (List.mem_cons_of_mem _ h')
      · rw [if_neg hk] at h
        rcases List.mem_cons.mp h with rfl | h'
        · exact Or.inr (List.mem_cons_self _ _)
        · rcases ih row h' with h'' | h''
          · exact Or.inl h''
          · exact Or.inr (List.mem_cons_of_mem _ h'')

theorem tableCounts_replacePK (k : String) (r : Row) :
    ∀ t : List Row, (∀ row ∈ t, row.puuid = some k → row.match_count = 0) →
    tableCounts (replacePK k r t) = tableCounts t + r.match_count := by
  intro t
  induction t with
  | nil => intro _; simp [replacePK, tableCounts]
  | cons x rest ih =>
      intro h0
      rw [replacePK]
      by_cases hk : x.puuid = some k
      · rw [if_pos hk]
        have hx : x.match_count = 0 := h0 x (List.mem_cons_self _ _) hk
        simp only [tableCounts, List.map_cons, List.sum_cons, hx]
        omega
      · rw [if_neg hk]
        simp only [tableCounts, List.map_cons, List.sum_cons]
        rw [show (List.map (fun r => r.match_count) (replacePK k r rest)).sum
            = tableCounts (replacePK k r rest) from rfl,
          ih (fun row hr => h0 row (List.mem_cons_of_mem _ hr))]
        simp only [tableCounts]
        omega

theorem tableCounts_upsertEntries :
    ∀ (entries : List (String × Agg)) (t : List Row),
    ((entries.map (fun e => e.1)).Nodup) →
    (∀ e ∈ entries, ∀ row ∈ t, row.puuid = some e.1 → row.match_count = 0) →
    tableCounts (upsertEntries t entries) = tableCounts t + sumCounts entries := by
  intro entries
  induction entries with
  | nil => intro t _ _; simp [upsertEntries, sumCounts]
  | cons e rest ih =>
      intro t hnd h0
      rw [upsertEntries, List.foldl_cons, ← upsertEntries]
      have hnd2 : (e.1 :: rest.map (fun e => e.1)).Nodup := by
        simpa using hnd
      have hnd' : ((rest.map (fun e => e.1)).Nodup) := (List.nodup_cons.mp hnd2).2
      have hkey : e.1 ∉ rest.map (fun e => e.1) := (List.nodup_cons.mp hnd2).1
      have hup : tableCounts (upsertRow t (rowOfEntry e)) =
          tableCounts t + e.2.match_count := by
        rw [upsertRow, rowOfEntry_puuid]
        exact tableCounts_replacePK e.1 (rowOfEntry e) t
          (h0 e (List.mem_cons_self _ _))
      have h0' : ∀ e' ∈ rest, ∀ row ∈ upsertRow t (rowOfEntry e),
          row.puuid = some e'.1 → row.match_count = 0 := by
        intro e' he' row hrow hpu
        rw [upsertRow, rowOfEntry_puuid] at hrow
        rcases mem_replacePK e.1 (rowOfEntry e) t row hrow with rfl | hrow'
        · rw [rowOfEntry_puuid] at hpu
          have hee : e.1 = e'.1 := Option.some.inj hpu
          exfalso
          apply hkey
          rw [hee]
          exact List.mem_map_of_mem _ he'
        · exact h0 e' (List.mem_cons_of_mem _ he') row hrow' hpu
      rw [ih _ hnd' h0', hup]
      simp only [sumCounts, List.map_cons, List.sum_cons]
      omega

theorem tableCounts_zeroScores (t : List Row) : tableCounts (zeroScores t) = 0 := by
  induction t with
  | nil => rfl
  | cons x rest ih =>
      simp only [zeroScores, tableCounts, List.map_cons, List.sum_cons] at ih ⊢
      simpa [zeroScoresRow] using ih

theorem zeroScores_count_zero (t : List Row) :
    ∀ row ∈ zeroScores t, row.match_count = 0 := by
  intro row hrow
  rcases List.mem_map.mp hrow with ⟨x, _, rfl⟩
  rfl

/-- C8: for a corpus whose valid documents each carry exactly 10 participants
with (non-falsy) puuids, the full rebuild's aggregate match counts sum to
`10 × number of valid matches` — both over the in-memory `playersMap` and
over the `match_count` column of the rebuilt table (rows of players absent
from the corpus having been zeroed). -/
theorem rebuild_matchCount_sum (corpus : List MatchFile) (t : List Row)
    (hok : ∀ f ∈ corpus, ∀ (dur : Option ℚ) (ps : List Participant),
      f = MatchFile.valid dur ps →
      ps.length = 10 ∧ ∀ p ∈ ps, strFalsy p.puuid = false) :
    sumCounts (buildState corpus).playersMap =
      10 * corpus.countP (fun f => isValidFile f) ∧
    tableCounts (normalizePlayersByPuuid corpus t) =
      10 * corpus.countP (fun f => isValidFile f) := by
  have hsum : ∀ corpus' : List MatchFile,
      (∀ f ∈ corpus', ∀ (dur : Option ℚ) (ps : List Participant),
        f = MatchFile.valid dur ps →
        ps.length = 10 ∧ ∀ p ∈ ps, strFalsy p.puuid = false) →
      (corpus'.map fileObs).sum = 10 * corpus'.countP (fun f => isValidFile f) := by
    intro corpus'
    induction corpus' with
    | nil => intro _; simp
    | cons f rest ih =>
        intro h
        rw [List.map_cons, List.sum_cons, List.countP_cons,
          ih (fun g hg => h g (List.mem_cons_of_mem _ hg))]
        cases f with
        | malformed => simp [fileObs, isValidFile]
        | badShape => simp [fileObs, isValidFile]
        | valid dur ps =>
            obtain ⟨hlen, hall⟩ := h _ (List.mem_cons_self _ _) dur ps rfl
            have hcnt : ps.countP (fun p => !strFalsy p.puuid) = ps.length :=
              List.countP_eq_length.mpr (fun p hp => by simp [hall p hp])
            simp only [fileObs, isValidFile, hcnt, hlen, if_true]
            ring
  have h1 : sumCounts (buildState corpus).playersMap =
      10 * corpus.countP (fun f => isValidFile f) := by
    rw [buildState, sumCounts_files_fold, hsum corpus hok]
    simp [sumCounts]
  refine ⟨h1, ?_⟩
  rw [normalizePlayersByPuuid_eq,
    tableCounts_upsertEntries _ _ (buildState_keys_nodup corpus)
      (fun e _ row hrow _ => zeroScores_count_zero t row hrow),
    tableCounts_zeroScores, h1]
  omega

/-- Witness for C8: one valid match with 10 participants yields aggregate
match counts summing to 10, in the map and in the rebuilt table. -/
theorem rebuild_matchCount_sum_witness :
    sumCounts (buildState [MatchFile.valid (some 1800)
      [⟨some "P1", none, none, some 0, some 0, some 0, some 0, some 0⟩,
       ⟨some "P2", none, none, some 0, some 0, some 0, some 0, some 0⟩,
       ⟨some "P3", none, none, some 0, some 0, some 0, some 0, some 0⟩,
       ⟨some "P4", none, none, some 0, some 0, some 0, some 0, some 0⟩,
       ⟨some "P5", none, none, some 0, some 0, some 0, some 0, some 0⟩,
       ⟨some "P6", none, none, some 0, some 0, some 0, some 0, some 0⟩,
       ⟨some "P7", none, none, some 0, some 0, some 0, some 0, some 0⟩,
       ⟨some "P8", none, none, some 0, some 0, some 0, some 0, some 0⟩,
       ⟨some "P9", none, none, some 0, some 0, some 0, some 0, some 0⟩,
       ⟨some "P10", none, none, some 0, some 0, some 0, some 0, some 0⟩]]).playersMap
      = 10 ∧
    tableCounts (normalizePlayersByPuuid [MatchFile.valid (some 1800)
      [⟨some "P1", none, none, some 0, some 0, some 0, some 0, some 0⟩,
       ⟨some "P2", none, none, some 0, some 0, some 0, some 0, some 0⟩,
       ⟨some "P3", none, none, some 0, some 0, some 0, some 0, some 0⟩,
       ⟨some "P4", none, none, some 0, some 0, some 0, some 0, some 0⟩,
       ⟨some "P5", none, none, some 0, some 0, some 0, some 0, some 0⟩,
       ⟨some "P6", none, none, some 0, some 0, some 0, some 0, some 0⟩,
       ⟨some "P7", none, none, some 0, some 0, some 0, some 0, some 0⟩,
       ⟨some "P8", none, none, some 0, some 0, some 0, some 0, some 0⟩,
       ⟨some "P9", none, none, some 0, some 0, some 0, some 0, some 0⟩,
       ⟨some "P10", none, none, some 0, some 0, some 0, some 0, some 0⟩]] [])
      = 10 := by
  obtain ⟨h1, h2⟩ := rebuild_matchCount_sum
    [MatchFile.valid (some 1800)
      [⟨some "P1", none, none, some 0, some 0, some 0, some 0, some 0⟩,
       ⟨some "P2", none, none, some 0, some 0, some 0, some 0, some 0⟩,
       ⟨some "P3", none, none, some 0, some 0, some 0, some 0, some 0⟩,
       ⟨some "P4", none, none, some 0, some 0, some 0, some 0, some 0⟩,
       ⟨some "P5", none, none, some 0, some 0, some 0, some 0, some 0⟩,
       ⟨some "P6", none, none, some 0, some 0, some 0, some 0, some 0⟩,
       ⟨some "P7", none, none, some 0, some 0, some 0, some 0, some 0⟩,
       ⟨some "P8", none, none, some 0, some 0, some 0, some 0, some 0⟩,
       ⟨some "P9", none, none, some 0, some 0, some 0, some 0, some 0⟩,
       ⟨some "P10", none, none, some 0, some 0, some 0, some 0, some 0⟩]] []
    (by
      intro f hf dur ps heq
      rcases List.mem_singleton.mp hf with rfl
      cases heq
      exact ⟨by decide, by decide⟩)
  exact ⟨h1.trans (by decide), h2.trans (by decide)⟩

theorem lookupAgg_cons (e : String × Agg) (m : List (String × Agg)) (k : String) :
    lookupAgg (e :: m) k = if e.1 = k then some e.2 else lookupAgg m k := by
  by_cases h : e.1 = k <;> simp [lookupAgg, List.find?_cons, h]

theorem lookupAgg_addObs (k' : String) (n : String) (f : ℚ) (o : JSNum)
    (k : String) : ∀ m : List (String × Agg),
    lookupAgg (addObs m k' n f o) k =
      if k' = k then obsStep (lookupAgg m k) (n, f, o) else lookupAgg m k := by
  intro m
  induction m with
  | nil =>
      rw [addObs]
      by_cases h : k' = k
      · rw [if_pos h, lookupAgg_cons, if_pos h]
        rfl
      · rw [if_neg h, lookupAgg_cons, if_neg h]
  | cons e rest ih =>
      rw [addObs]
      by_cases he : e.1 = k'
      · rw [if_pos he]
        by_cases h : k' = k
        · rw [lookupAgg_cons, if_pos h, if_pos h, lookupAgg_cons,
            if_pos (he.trans h)]
          rfl
        · rw [lookupAgg_cons, if_neg h, if_neg h, lookupAgg_cons,
            if_neg (fun hc => h (he.symm.trans hc))]
      · rw [if_neg he, lookupAgg_cons, lookupAgg_cons]
        by_cases hek : e.1 = k
        · rw [if_pos hek, if_pos hek,
            if_neg (fun hc => he (hek.trans hc.symm))]
        · rw [if_neg hek, if_neg hek, ih]

theorem lookupAgg_processParticipant (durMin : JSNum) (p : Participant)
    (m : List (String × Agg)) (k : String) :
    lookupAgg (processParticipant durMin m p) k =
      if isObsOf k p then obsStep (lookupAgg m k) (obsOfPart durMin p)
      else lookupAgg m k := by
  rw [processParticipant, isObsOf]
  by_cases hp : strFalsy p.puuid = true
  · simp [hp]
  · have hp' : strFalsy p.puuid = false := Bool.eq_false_iff.mpr hp
    rw [if_neg hp, lookupAgg_addObs]
    by_cases hk : p.puuid.getD "" = k
    · rw [if_pos hk, if_pos (by simp [hp', hk])]
      rfl
    · rw [if_neg hk, if_neg (by simp [hp', hk])]

theorem lookupAgg_parts_fold (durMin : JSNum) (k : String) :
    ∀ (ps : List Participant) (m : List (String × Agg)),
    lookupAgg (ps.foldl (processParticipant durMin) m) k =
      ((ps.filter (isObsOf k)).map (obsOfPart durMin)).foldl obsStep
        (lookupAgg m k) := by
  intro ps
  induction ps with
  | nil => intro m; rfl
  | cons p rest ih =>
      intro m
      rw [List.foldl_cons, ih]
      by_cases hp : isObsOf k p = true
      · rw [List.filter_cons_of_pos hp, List.map_cons, List.foldl_cons,
          lookupAgg_processParticipant, if_pos hp]
      · rw [List.filter_cons_of_neg (by simpa using hp),
          lookupAgg_processParticipant, if_neg hp]

theorem lookupAgg_files_fold (k : String) :
    ∀ (corpus : List MatchFile) (st : RunState),
    lookupAgg (corpus.foldl processFile st).playersMap k =
      (obsOf k corpus).foldl obsStep (lookupAgg st.playersMap k) := by
  intro corpus
  induction corpus with
  | nil => intro st; rfl
  | cons f rest ih =>
      intro st
      rw [List.foldl_cons]
      cases f with
      | malformed => rw [ih]; rfl
      | badShape => rw [ih]; rfl
      | valid dur ps =>
          rw [ih, obsOf, List.foldl_append]
          simp only [processFile]
          rw [lookupAgg_parts_fold]

/-- Master occurrence lemma: after the full corpus pass, a puuid's aggregate
is exactly the fold of its observations. -/
theorem lookupAgg_buildState (corpus : List MatchFile) (k : String) :
    lookupAgg (buildState corpus).playersMap k =
      (obsOf k corpus).foldl obsStep none := by
  rw [buildState, lookupAgg_files_fold]
  rfl

/-- C4 counterexample: the incremental upsert does not key on the stable
player identifier.  Two `/api/save-player` requests carrying the same
player's per-match metrics under two display names ("Alice#EUW" then
"Alice#NA1" — the spec's same-puuid tag-change scenario; the request body
has no puuid field at all) produce two separate rows, each with
`match_count = 1`, while the full rebuild on the corresponding corpus
produces exactly one aggregate for the shared puuid with both names and
`match_count = 2`. -/
theorem incremental_upsert_not_puuid_keyed :
    (savePlayer (savePlayer [] ⟨some "Alice#EUW", 1, 2, some "X"⟩).1
        ⟨some "Alice#NA1", 1, 2, some "X"⟩).1 =
      [⟨"Alice#EUW", .fin 1, .fin 2, some "X", 1⟩,
       ⟨"Alice#NA1", .fin 1, .fin 2, some "X", 1⟩] ∧
    lookupAgg (buildState
        [MatchFile.valid (some 60)
          [⟨some "P", some "Alice", some "EUW", some 0, some 1, some 0, some 0,
            some 0⟩],
         MatchFile.valid (some 60)
          [⟨some "P", some "Alice", some "NA1", some 0, some 1, some 0, some 0,
            some 0⟩]]).playersMap "P" =
      some ⟨["Alice#EUW", "Alice#NA1"], 2, .fin 0, 2, none⟩ := by decide

/-- C4 amended: the full rebuild keys player identity on the puuid — the
players map holds at most one entry per puuid, and a puuid observed under
two display names ends up in one aggregate holding both names with
`match_count = 2` — while the incremental `/api/save-player` upsert keys its
known/unknown decision on the display name stored in `names` (its request
carries no puuid): a request whose name matches an existing row updates in
place (no new row), and a request with an unmatched name inserts a new row. -/
theorem player_identity_keying (corpus : List MatchFile) :
    ((buildState corpus).playersMap.map (fun e => e.1)).Nodup ∧
    (∀ (k n1 n2 : String) (f1 f2 : ℚ) (o1 o2 : JSNum),
      obsOf k corpus = [(n1, f1, o1), (n2, f2, o2)] → n1 ≠ n2 →
      lookupAgg (buildState corpus).playersMap k =
        some ⟨[n1, n2], qadd f1 f2, jsAdd o1 o2, 2, none⟩) ∧
    (∀ (t : List SPRow) (req : SPReq) (name : String),
      req.name = some name → name ≠ "" →
      ((∃ row, t.find? (fun r => r.names = name) = some row) →
        (savePlayer t req).1.length = t.length) ∧
      (t.find? (fun r => r.names = name) = none →
        (savePlayer t req).1.length = t.length + 1)) := by
  refine ⟨buildState_keys_nodup corpus, ?_, ?_⟩
  · intro k n1 n2 f1 f2 o1 o2 hobs hne
    rw [lookupAgg_buildState, hobs, List.foldl_cons, List.foldl_cons,
      List.foldl_nil]
    show some (mergeAgg ⟨[n1], f1, o1, 1, none⟩ n2 f2 o2) = _
    rw [mergeAgg]
    simp only [addName, List.mem_singleton]
    rw [if_neg (Ne.symm hne)]
    rfl
  · intro t req name hname hne
    have hf : strFalsy req.name = false := by
      rw [hname]; exact strFalsy_some_false name hne
    constructor
    · rintro ⟨row, hrow⟩
      rw [savePlayer, hf]
      simp only [Bool.false_eq_true, if_false, hname, Option.getD_some, hrow]
      exact List.length_map _ _
    · intro hnone
      rw [savePlayer, hf]
      simp only [Bool.false_eq_true, if_false, hname, Option.getD_some, hnone]
      simp

/-- Witness for C4 (amended): a concrete corpus where puuid "P" appears as
"Alice#EUW" and then "Alice#NA1" yields a single aggregate with both names
and match count 2; a save-player request matching an existing name updates
in place, one with a fresh name appends. -/
theorem player_identity_keying_witness :
    lookupAgg (buildState
        [MatchFile.valid (some 60)
          [⟨some "P", some "Alice", some "EUW", some 0, some 1, some 0, some 0,
            some 0⟩],
         MatchFile.valid (some 60)
          [⟨some "P", some "Alice", some "NA1", some 0, some 1, some 0, some 0,
            some 0⟩]]).playersMap "P" =
      some ⟨["Alice#EUW", "Alice#NA1"], qadd 1 1, jsAdd (.fin 0) (.fin 0), 2, none⟩ ∧
    (savePlayer [⟨"Alice#EUW", .fin 1, .fin 2, some "X", 1⟩]
        ⟨some "Alice#EUW", 1, 2, some "X"⟩).1.length = 1 ∧
    (savePlayer [⟨"Alice#EUW", .fin 1, .fin 2, some "X", 1⟩]
        ⟨some "Alice#NA1", 1, 2, some "X"⟩).1.length = 2 := by
  refine ⟨?_, ?_, ?_⟩
  · exact (player_identity_keying _).2.1 "P" "Alice#EUW" "Alice#NA1" 1 1
      (.fin 0) (.fin 0) (by decide) (by decide)
  · exact ((player_identity_keying []).2.2
      [⟨"Alice#EUW", .fin 1, .fin 2, some "X", 1⟩]
      ⟨some "Alice#EUW", 1, 2, some "X"⟩ "Alice#EUW" rfl (by decide)).1
      ⟨⟨"Alice#EUW", .fin 1, .fin 2, some "X", 1⟩, by decide⟩
  · exact ((player_identity_keying []).2.2
      [⟨"Alice#EUW", .fin 1, .fin 2, some "X", 1⟩]
      ⟨some "Alice#NA1", 1, 2, some "X"⟩ "Alice#NA1" rfl (by decide)).2
      (by decide)

/-- C1: `normalizeOpScore` clamps inputs at or above 1252.11 to 10 and at or
below 146.92 to 0, returns the paired grade exactly at each of the 11
anchors, and on any input strictly between two adjacent anchors returns the
linear interpolation of the two anchor grades rounded to 2 decimal places;
in particular the named sample points evaluate as the claim lists, and
1252.11 = `mkRat 125211 100`, 424.93 = `mkRat 42493 100`,
146.92 = `mkRat 14692 100`, 468.92 = `mkRat 46892 100` sit exactly where the
claim puts them (468.92 strictly between grades 4 and 5). -/
theorem normalizeOpScore_spec :
    (∀ q : ℚ, mkRat 125211 100 ≤ q → normalizeOpScore (.fin q) = 10) ∧
    (∀ q : ℚ, q ≤ mkRat 14692 100 → normalizeOpScore (.fin q) = 0) ∧
    (∀ i : ℕ, i < 11 → normalizeOpScore (.fin (anchor i).1) = (anchor i).2) ∧
    (normalizeOpScore (.fin 2000) = 10 ∧ normalizeOpScore (.fin 0) = 0 ∧
     normalizeOpScore (.fin (mkRat 42493 100)) = 4 ∧
     normalizeOpScore (.fin (mkRat 125211 100)) = 10 ∧
     normalizeOpScore (.fin (mkRat 14692 100)) = 0 ∧
     4 < normalizeOpScore (.fin (mkRat 46892 100)) ∧
     normalizeOpScore (.fin (mkRat 46892 100)) < 5) ∧
    (∀ i : ℕ, i < 10 → ∀ q : ℚ,
      (anchor (i + 1)).1 < q → q < (anchor i).1 →
      normalizeOpScore (.fin q) =
        round2 (qadd (anchor (i + 1)).2
          (qmul (qdiv (qsub q (anchor (i + 1)).1)
              (qsub (anchor i).1 (anchor (i + 1)).1))
            (qsub (anchor i).2 (anchor (i + 1)).2)))) := by
  refine ⟨?_, ?_, ?_, ?_, ?_⟩
  · intro q h
    rw [normalizeOpScore, if_pos (by
      simp only [jsGe, jsLe, decide_eq_true_eq]
      exact h)]
  · intro q h
    rw [normalizeOpScore,
      if_neg (by
        simp only [jsGe, jsLe, decide_eq_true_eq]
        exact not_le.mpr (lt_of_le_of_lt h (by decide))),
      if_pos (by
        simp only [jsLe, decide_eq_true_eq]
        exact h)]
  · intro i hi
    interval_cases i <;> decide
  · exact ⟨by decide, by decide, by decide, by decide, by decide, by decide,
      by decide⟩
  · intro i hi
    interval_cases i <;>
      (intro q h1 h2
       rw [normalizeOpScore,
         if_neg (by
           simp only [jsGe, jsLe, decide_eq_true_eq]
           exact not_le.mpr (h2.trans_le (by decide))),
         if_neg (by
           simp only [jsLe, decide_eq_true_eq]
           exact not_le.mpr (lt_of_le_of_lt (by decide) h1))]
       show interpLoop q thresholds = _
       rw [thresholds]
       simp only [interpLoop]
       repeat rw [if_neg (by
         rintro ⟨ha, hb⟩
         exact absurd hb (not_lt.mpr (le_of_lt (h2.trans_le (by decide)))))]
       rw [if_pos ⟨le_of_lt h2, h1⟩]
       try rfl)

/-- Witness for C1: the clamp fires at 2000, and the interpolation clause at
the pair (424.93, 512.91) evaluates 468.92 to exactly 4.5. -/
theorem normalizeOpScore_spec_witness :
    normalizeOpScore (.fin 2000) = 10 ∧
    normalizeOpScore (.fin (mkRat 46892 100)) = mkRat 9 2 := by
  constructor
  · exact normalizeOpScore_spec.1 2000 (by decide)
  · exact (normalizeOpScore_spec.2.2.2.2 5 (by decide) (mkRat 46892 100)
      (by decide) (by decide)).trans (by decide)
